import Mathlib

/-!
Shallow embedding of `pxr/imaging/lib/hd/bufferArray.h` (class `HdBufferArray`).

The repository provides only the header: accessors with inline bodies
(`GetRole`, `GetVersion`, `GetRangeCount`, `NeedsReallocation`, `GetResources`,
`_SetMaxNumRanges`) are embedded from those bodies; the remaining member
functions are declared in the header but defined in `bufferArray.cpp`, which is
not part of the sources, and `GarbageCollect` / `Reallocate` are pure virtual.
Those operations are modelled from the specification, as marked on each
definition.

Modelling choices:
- `size_t` fields are `Nat`; `_version` arithmetic is taken modulo `2 ^ 64`
  where the counter is advanced, since `size_t` wraps.
- `boost::weak_ptr<HdBufferArrayRange>` entries of `_rangeList` are modelled as
  range identifiers (`Nat`); whether a weak reference still resolves is an
  external fact, passed to the operations that probe liveness as a predicate
  `alive : Nat → Bool`.
- the per-range byte contents that `Reallocate` copies are modelled as an
  association list `storage : List (Nat × List Nat)` from range id to bytes.
- each whole call that the header protects with `_rangeListLock` is one atomic
  step of the model; a concurrent execution of such calls is an arbitrary
  serialization of them.
-/

/-- The size of `size_t` arithmetic: `size_t` values wrap modulo `2 ^ 64`. -/
def sizeTMod : Nat := 2 ^ 64

/-- Embeds `HdBufferResource`: the metadata passed to `_AddResource`
(`glDataType`, `numComponents`, `arraySize`, `offset`, `stride`). -/
structure HdBufferResource where
  glDataType : Int
  numComponents : Int
  arraySize : Int
  offset : Int
  stride : Int
deriving DecidableEq, Repr

/-- Embeds `HdBufferArrayRangeSharedPtr` as seen by `Reallocate`: the range's
identity together with the id of the array its back-reference currently
points at (the owner found "via the range's back-reference"). -/
structure HdBufferArrayRange where
  rid : Nat
  owner : Nat
deriving DecidableEq, Repr

/-- Embeds the state of `HdBufferArray` (header lines 129-172):
`_needsReallocation`, `_rangeList`, `_rangeCount`, `_role`,
`_garbageCollectionPerfToken`, `_version`, `_resourceList`, `_maxNumRanges`.
`arrayId` models the object's identity (`this`), used by range
back-references; `storage` models the byte contents the array's GPU resources
hold for each range, which `Reallocate` rebuilds. -/
structure HdBufferArray where
  arrayId : Nat
  role : String
  garbageCollectionPerfToken : String
  version : Nat
  needsReallocation : Bool
  maxNumRanges : Nat
  resourceList : List (String × HdBufferResource)
  rangeList : List Nat
  rangeCount : Nat
  storage : List (Nat × List Nat)
deriving DecidableEq, Repr

/-- Modelled from the spec: the constructor body is in `bufferArray.cpp`,
absent from the sources. Construction stores the two immutable tokens and
starts with no resources and no attached ranges; `maxNumRanges` is the
capacity ceiling "set once by the concrete subclass at construction"
(the subclass calls `_SetMaxNumRanges`, header line 148). -/
def mkHdBufferArray (arrayId : Nat) (role gcToken : String)
    (maxNumRanges : Nat) : HdBufferArray :=
  { arrayId := arrayId
    role := role
    garbageCollectionPerfToken := gcToken
    version := 0
    needsReallocation := false
    maxNumRanges := maxNumRanges
    resourceList := []
    rangeList := []
    rangeCount := 0
    storage := [] }

/-- Embeds `GetRole` (header line 60, inline body). -/
def HdBufferArray.GetRole (a : HdBufferArray) : String := a.role

/-- Embeds `GetVersion` (header lines 64-66, inline body). -/
def HdBufferArray.GetVersion (a : HdBufferArray) : Nat := a.version

/-- Embeds `GetRangeCount` (header line 115, inline body): returns
`_rangeCount`. -/
def HdBufferArray.GetRangeCount (a : HdBufferArray) : Nat := a.rangeCount

/-- Embeds `NeedsReallocation` (header lines 125-127, inline body). -/
def HdBufferArray.NeedsReallocation (a : HdBufferArray) : Bool :=
  a.needsReallocation

/-- Embeds `GetResources` (header line 87, inline body). -/
def HdBufferArray.GetResources (a : HdBufferArray) :
    List (String × HdBufferResource) := a.resourceList

/-- Embeds `_SetMaxNumRanges` (header line 148, inline body). -/
def HdBufferArray.SetMaxNumRanges (a : HdBufferArray) (max : Nat) :
    HdBufferArray := { a with maxNumRanges := max }

/-- Modelled from the spec: the body of `IncrementVersion` is in
`bufferArray.cpp`, absent from the sources. It "advances `version`";
`_version` is a `size_t` (header line 168), so the advance is one step of
`size_t` arithmetic, i.e. plus one modulo `2 ^ 64`. -/
def HdBufferArray.IncrementVersion (a : HdBufferArray) : HdBufferArray :=
  { a with version := (a.version + 1) % sizeTMod }

/-- Modelled from the spec: the body of `TryAssignRange` is in
`bufferArray.cpp`, absent from the sources. Per the spec, if
`rangeCount < maxNumRanges` it appends a weak reference to the range,
sets `needsReallocation = true`, increments the version and returns success;
otherwise it returns failure with no mutation. The whole call runs under
`_rangeListLock`, so it is one atomic step of the model. -/
def HdBufferArray.TryAssignRange (a : HdBufferArray) (range : Nat) :
    HdBufferArray × Bool :=
  if a.rangeCount < a.maxNumRanges then
    ({ a with
        rangeList := a.rangeList ++ [range]
        rangeCount := a.rangeCount + 1
        needsReallocation := true
        version := (a.version + 1) % sizeTMod }, true)
  else
    (a, false)

/-- Modelled from the spec: the body of `RemoveUnusedRanges` is in
`bufferArray.cpp`, absent from the sources. It compacts the range list,
retaining only entries whose weak referent is still alive and preserving
relative order, and updates `_rangeCount` to the new live count; it touches
no other state. -/
def HdBufferArray.RemoveUnusedRanges (a : HdBufferArray) (alive : Nat → Bool) :
    HdBufferArray :=
  { a with
      rangeList := a.rangeList.filter alive
      rangeCount := (a.rangeList.filter alive).length }

/-- Modelled from the spec: the body of `GetResource()` (no argument,
header line 77) is in `bufferArray.cpp`, absent from the sources. It
"returns the sole resource" and "raises a coding error" when the array
contains more than one resource. An empty table yields no resource. -/
def HdBufferArray.GetResource (a : HdBufferArray) :
    Option HdBufferResource × Bool :=
  match a.resourceList with
  | [] => (none, false)
  | [(_, r)] => (some r, false)
  | _ => (none, true)

/-- Modelled from the spec: the body of `_AddResource` is in
`bufferArray.cpp`, absent from the sources. It creates a resource from the
given metadata, registers it under `name` at the end of `_resourceList`, and
returns it. -/
def HdBufferArray.AddResource (a : HdBufferArray) (name : String)
    (glDataType : Int) (numComponents : Int) (arraySize : Int)
    (offset : Int) (stride : Int) : HdBufferArray × HdBufferResource :=
  let r : HdBufferResource :=
    { glDataType := glDataType
      numComponents := numComponents
      arraySize := arraySize
      offset := offset
      stride := stride }
  ({ a with resourceList := a.resourceList ++ [(name, r)] }, r)

/-- Modelled from the spec: the body of `_SetRangeList` is in
`bufferArray.cpp`, absent from the sources. It swaps the range list with the
given ranges (the registry's `ReplaceAll`) and sets `_rangeCount`
accordingly. -/
def HdBufferArray.SetRangeList (a : HdBufferArray) (ranges : List Nat) :
    HdBufferArray :=
  { a with rangeList := ranges, rangeCount := ranges.length }

/-- Bytes held for a range id in a storage association list; an id that is
not present holds no bytes. -/
def lookupBytes (st : List (Nat × List Nat)) (rid : Nat) : List Nat :=
  match st.find? (fun p => p.1 == rid) with
  | some p => p.2
  | none => []

/-- Modelled from the spec: `Reallocate` is pure virtual (header lines
103-106); the spec gives its contract. It rebuilds the storage so that
exactly the given ranges are represented, in order, copying each range's
data from `curRangeOwner` when the range's back-reference names an owner
other than this array and keeping this array's own data otherwise; then
`needsReallocation` becomes false, the version is incremented, and the
range list is replaced wholesale with the new set. -/
def HdBufferArray.Reallocate (a : HdBufferArray)
    (ranges : List HdBufferArrayRange) (curRangeOwner : HdBufferArray) :
    HdBufferArray :=
  let a' := { a with
    storage := ranges.map (fun (r : HdBufferArrayRange) =>
      (r.rid,
        if r.owner == a.arrayId then lookupBytes a.storage r.rid
        else lookupBytes curRangeOwner.storage r.rid))
    needsReallocation := false
    version := (a.version + 1) % sizeTMod }
  a'.SetRangeList (ranges.map (fun (r : HdBufferArrayRange) => r.rid))

/-- Modelled from the spec: `GarbageCollect` is pure virtual (header line
98); the spec gives its contract. It removes stale ranges (and the storage
holes they left) and returns true exactly when the array has become
completely empty. -/
def HdBufferArray.GarbageCollect (a : HdBufferArray) (alive : Nat → Bool) :
    HdBufferArray × Bool :=
  let a' := a.RemoveUnusedRanges alive
  ({ a' with storage := a'.storage.filter (fun p => alive p.1) },
    a'.rangeCount == 0)

/-- Runs one `TryAssignRange` call per element of `rs`, in that order,
returning the final state and each call's result. Since every call is one
atomic step (it runs under `_rangeListLock`), an execution by concurrent
threads is exactly such a run for some serialization `rs` of the calls. -/
def runTryAssign (a : HdBufferArray) (rs : List Nat) :
    HdBufferArray × List Bool :=
  match rs with
  | [] => (a, [])
  | r :: rest =>
    let p := a.TryAssignRange r
    let q := runTryAssign p.1 rest
    (q.1, p.2 :: q.2)

/-- Applies `IncrementVersion` `n` times. -/
def iterateIncrement : Nat → HdBufferArray → HdBufferArray
  | 0, a => a
  | n + 1, a => iterateIncrement n a.IncrementVersion

/-- The constraint the code maintains on its private state: `_rangeCount`
counts the entries of `_rangeList`, and it never exceeds `_maxNumRanges`. -/
def HdBufferArray.WellFormed (a : HdBufferArray) : Prop :=
  a.rangeCount = a.rangeList.length ∧ a.rangeCount ≤ a.maxNumRanges

/-! ## Helper lemmas -/

theorem iterateIncrement_version (n : Nat) (a : HdBufferArray)
    (h : a.version < sizeTMod) :
    (iterateIncrement n a).version = (a.version + n) % sizeTMod := by
  induction n generalizing a with
  | zero => simp [iterateIncrement, Nat.mod_eq_of_lt h]
  | succ n ih =>
    have hm : (a.version + 1) % sizeTMod < sizeTMod :=
      Nat.mod_lt _ (by unfold sizeTMod; positivity)
    rw [iterateIncrement, ih _ hm]
    show ((a.version + 1) % sizeTMod + n) % sizeTMod = _
    rw [Nat.mod_add_mod]
    ring_nf

theorem lookupBytes_map (g : Nat → List Nat) (R : List HdBufferArrayRange)
    (r : HdBufferArrayRange) (hr : r ∈ R) :
    lookupBytes (R.map (fun x => (x.rid, g x.rid))) r.rid = g r.rid := by
  induction R with
  | nil => cases hr
  | cons x rest ih =>
    unfold lookupBytes
    by_cases hx : x.rid = r.rid
    · rw [List.map_cons, List.find?_cons_of_pos _ (by simp [hx])]
      simpa using hx ▸ rfl
    · rw [List.map_cons, List.find?_cons_of_neg _ (by simp [hx])]
      have hrest : r ∈ rest := by
        rcases List.mem_cons.mp hr with h | h
        · exact absurd (congrArg HdBufferArrayRange.rid h.symm) hx
        · exact h
      exact ih hrest

theorem runTryAssign_count (rs : List Nat) (a : HdBufferArray)
    (h : a.rangeCount ≤ a.maxNumRanges) :
    (runTryAssign a rs).2.count true =
      min rs.length (a.maxNumRanges - a.rangeCount) ∧
    (runTryAssign a rs).1.rangeCount =
      min (a.rangeCount + rs.length) a.maxNumRanges := by
  induction rs generalizing a with
  | nil =>
    unfold runTryAssign
    simp
    omega
  | cons r rest ih =>
    unfold runTryAssign HdBufferArray.TryAssignRange
    by_cases hc : a.rangeCount < a.maxNumRanges
    · simp only [if_pos hc]
      obtain ⟨ih1, ih2⟩ := ih
        { a with
            rangeList := a.rangeList ++ [r]
            rangeCount := a.rangeCount + 1
            needsReallocation := true
            version := (a.version + 1) % sizeTMod } hc
      simp only [List.count_cons, List.length_cons] at *
      constructor
      · simp only [ih1]
        simp
        omega
      · simp only [ih2]
        omega
    · simp only [if_neg hc]
      obtain ⟨ih1, ih2⟩ := ih a h
      simp only [List.count_cons, List.length_cons] at *
      constructor
      · simp only [ih1]
        simp
        omega
      · simp only [ih2]
        omega

theorem count_false_add_count_true (l : List Bool) :
    l.count false + l.count true = l.length := by
  induction l with
  | nil => rfl
  | cons b rest ih =>
    cases b <;> simp [List.count_cons] <;> omega

/-! ## Claim theorems -/

/-- C1: `TryAssignRange` returns true iff the attached-range count is
strictly below `maxNumRanges` at call time; on success the range count
increases by exactly one and `needsReallocation` becomes true; on failure
it returns false and mutates no state of the array. -/
theorem tryAssignRange_contract (a : HdBufferArray) (r : Nat) :
    ((a.TryAssignRange r).2 = true ↔ a.GetRangeCount < a.maxNumRanges) ∧
    ((a.TryAssignRange r).2 = true →
      (a.TryAssignRange r).1.GetRangeCount = a.GetRangeCount + 1 ∧
      (a.TryAssignRange r).1.NeedsReallocation = true) ∧
    ((a.TryAssignRange r).2 = false → (a.TryAssignRange r).1 = a) := by
  unfold HdBufferArray.TryAssignRange HdBufferArray.GetRangeCount
    HdBufferArray.NeedsReallocation
  by_cases h : a.rangeCount < a.maxNumRanges <;> simp [h]

/-- C1 witness: the contract evaluated on a fresh array of capacity 2. -/
theorem tryAssignRange_contract_witness :
    (((mkHdBufferArray 0 "vertex" "gc" 2).TryAssignRange 7).2 = true ↔
      (mkHdBufferArray 0 "vertex" "gc" 2).GetRangeCount <
        (mkHdBufferArray 0 "vertex" "gc" 2).maxNumRanges) ∧
    (((mkHdBufferArray 0 "vertex" "gc" 2).TryAssignRange 7).2 = true →
      ((mkHdBufferArray 0 "vertex" "gc" 2).TryAssignRange 7).1.GetRangeCount =
        (mkHdBufferArray 0 "vertex" "gc" 2).GetRangeCount + 1 ∧
      ((mkHdBufferArray 0 "vertex" "gc" 2).TryAssignRange
        7).1.NeedsReallocation = true) ∧
    (((mkHdBufferArray 0 "vertex" "gc" 2).TryAssignRange 7).2 = false →
      ((mkHdBufferArray 0 "vertex" "gc" 2).TryAssignRange 7).1 =
        mkHdBufferArray 0 "vertex" "gc" 2) :=
  tryAssignRange_contract (mkHdBufferArray 0 "vertex" "gc" 2) 7

/-- C2: when N calls to `TryAssignRange` race on one array of capacity M
(each call is one atomic step, since the whole call runs under
`_rangeListLock`), every serialization of the N calls yields exactly M
results `true` and N - M results `false`, and `GetRangeCount` is M
afterwards, for every 0 ≤ M ≤ N and every starting range id list. -/
theorem tryAssignRange_concurrent (N M : Nat) (rs : List Nat)
    (a : HdBufferArray) (hlen : rs.length = N) (hmax : a.maxNumRanges = M)
    (hcnt : a.rangeCount = 0) (hMN : M ≤ N) :
    (runTryAssign a rs).2.count true = M ∧
    (runTryAssign a rs).2.count false = N - M ∧
    (runTryAssign a rs).1.GetRangeCount = M := by
  obtain ⟨h1, h2⟩ := runTryAssign_count rs a (by omega)
  have hL : (runTryAssign a rs).2.length = rs.length := by
    clear h1 h2 hlen hMN hcnt hmax
    induction rs generalizing a with
    | nil => rfl
    | cons r rest ih =>
      unfold runTryAssign
      simp [ih]
  have hc := count_false_add_count_true (runTryAssign a rs).2
  rw [hL] at hc
  unfold HdBufferArray.GetRangeCount
  omega

/-- C2 witness: three racing calls on a fresh array of capacity 2 give two
successes, one failure, and a final range count of 2. -/
theorem tryAssignRange_concurrent_witness :
    (runTryAssign (mkHdBufferArray 0 "vertex" "gc" 2) [4, 5, 6]).2.count true
      = 2 ∧
    (runTryAssign (mkHdBufferArray 0 "vertex" "gc" 2) [4, 5, 6]).2.count false
      = 3 - 2 ∧
    (runTryAssign (mkHdBufferArray 0 "vertex" "gc" 2)
      [4, 5, 6]).1.GetRangeCount = 2 :=
  tryAssignRange_concurrent 3 2 [4, 5, 6] (mkHdBufferArray 0 "vertex" "gc" 2)
    rfl rfl rfl (by norm_num)

/-- An array whose version has reached the largest `size_t` value, with spare
range capacity. -/
def wrapArray : HdBufferArray :=
  { mkHdBufferArray 0 "vertex" "gc" 1 with version := 2 ^ 64 - 1 }

/-- C4 counterexample: on an array whose version is `2 ^ 64 - 1` (the largest
`size_t` value) a `TryAssignRange` succeeds, yet `GetVersion` does not
strictly increase — the `size_t` counter wraps to 0. -/
theorem tryAssignRange_version_wrap :
    (wrapArray.TryAssignRange 1).2 = true ∧
    ¬ wrapArray.GetVersion < (wrapArray.TryAssignRange 1).1.GetVersion := by
  refine ⟨rfl, ?_⟩
  show ¬ wrapArray.version < (2 ^ 64 - 1 + 1) % sizeTMod
  norm_num [wrapArray, mkHdBufferArray, sizeTMod]

/-- C4 amended: a successful `TryAssignRange` advances `GetVersion` by
exactly one modulo `2 ^ 64`, which is a strict increase whenever the version
has not reached the largest `size_t` value; a failed `TryAssignRange` leaves
`GetVersion` unchanged. -/
theorem tryAssignRange_version (a : HdBufferArray) (r : Nat) :
    ((a.TryAssignRange r).2 = true →
      (a.TryAssignRange r).1.GetVersion = (a.GetVersion + 1) % 2 ^ 64 ∧
      (a.GetVersion + 1 < 2 ^ 64 →
        a.GetVersion < (a.TryAssignRange r).1.GetVersion)) ∧
    ((a.TryAssignRange r).2 = false →
      (a.TryAssignRange r).1.GetVersion = a.GetVersion) := by
  unfold HdBufferArray.TryAssignRange HdBufferArray.GetVersion
  by_cases h : a.rangeCount < a.maxNumRanges <;> simp [h, sizeTMod]
  intro hlt
  rw [Nat.mod_eq_of_lt hlt]
  omega

/-- C4 witness: the version behaviour evaluated on a fresh array of
capacity 2. -/
theorem tryAssignRange_version_witness :
    (((mkHdBufferArray 0 "vertex" "gc" 2).TryAssignRange 7).2 = true →
      ((mkHdBufferArray 0 "vertex" "gc" 2).TryAssignRange 7).1.GetVersion =
        ((mkHdBufferArray 0 "vertex" "gc" 2).GetVersion + 1) % 2 ^ 64 ∧
      ((mkHdBufferArray 0 "vertex" "gc" 2).GetVersion + 1 < 2 ^ 64 →
        (mkHdBufferArray 0 "vertex" "gc" 2).GetVersion <
          ((mkHdBufferArray 0 "vertex" "gc" 2).TryAssignRange
            7).1.GetVersion)) ∧
    (((mkHdBufferArray 0 "vertex" "gc" 2).TryAssignRange 7).2 = false →
      ((mkHdBufferArray 0 "vertex" "gc" 2).TryAssignRange 7).1.GetVersion =
        (mkHdBufferArray 0 "vertex" "gc" 2).GetVersion) :=
  tryAssignRange_version (mkHdBufferArray 0 "vertex" "gc" 2) 7

/-- C5: after `Reallocate(R, curRangeOwner)` where every range in `R`
previously belonged to `curRangeOwner`, each range's bytes in the rebuilt
array equal that range's bytes in `curRangeOwner` immediately before the
call, `NeedsReallocation` is false, the version has been incremented, and
the installed range set is exactly `R`, in order, with the range count
replaced wholesale. The hypothesis `hself` states that equal array ids name
one and the same array (relevant only when an array reallocates in place). -/
theorem reallocate_spec (a curRangeOwner : HdBufferArray)
    (R : List HdBufferArrayRange)
    (hown : ∀ r ∈ R, r.owner = curRangeOwner.arrayId)
    (hself : a.arrayId = curRangeOwner.arrayId →
      a.storage = curRangeOwner.storage) :
    (∀ r ∈ R, lookupBytes (a.Reallocate R curRangeOwner).storage r.rid =
      lookupBytes curRangeOwner.storage r.rid) ∧
    (a.Reallocate R curRangeOwner).NeedsReallocation = false ∧
    (a.Reallocate R curRangeOwner).GetVersion = (a.GetVersion + 1) % 2 ^ 64 ∧
    (a.Reallocate R curRangeOwner).rangeList =
      R.map (fun r => r.rid) ∧
    (a.Reallocate R curRangeOwner).GetRangeCount = R.length := by
  have hst : (a.Reallocate R curRangeOwner).storage =
      R.map (fun x =>
        (x.rid, lookupBytes curRangeOwner.storage x.rid)) := by
    show R.map _ = R.map _
    refine List.map_congr_left (fun x hx => ?_)
    by_cases ho : x.owner == a.arrayId
    · have h1 : x.owner = a.arrayId := by simpa using ho
      have h2 : a.arrayId = curRangeOwner.arrayId := h1 ▸ hown x hx
      simp [ho, hself h2]
    · simp [ho]
  refine ⟨fun r hr => ?_, rfl, rfl, by simp [HdBufferArray.Reallocate,
    HdBufferArray.SetRangeList], by simp [HdBufferArray.Reallocate,
    HdBufferArray.SetRangeList, HdBufferArray.GetRangeCount]⟩
  rw [hst]
  exact lookupBytes_map _ R r hr

/-- An array that owns ranges 1 and 2 with known byte contents. -/
def ownerArray : HdBufferArray :=
  { mkHdBufferArray 1 "vertex" "gc" 4 with
      rangeList := [1, 2], rangeCount := 2,
      storage := [(1, [10, 11]), (2, [20])] }

/-- A fresh destination array the two ranges move into. -/
def destArray : HdBufferArray := mkHdBufferArray 0 "vertex" "gc" 4

/-- C5 witness: moving ranges 1 and 2 from `ownerArray` into `destArray`
preserves their bytes and installs exactly that range set. -/
theorem reallocate_spec_witness :
    lookupBytes ((destArray.Reallocate [⟨1, 1⟩, ⟨2, 1⟩] ownerArray)).storage 1
      = lookupBytes ownerArray.storage 1 ∧
    lookupBytes ((destArray.Reallocate [⟨1, 1⟩, ⟨2, 1⟩] ownerArray)).storage 2
      = lookupBytes ownerArray.storage 2 ∧
    (destArray.Reallocate [⟨1, 1⟩, ⟨2, 1⟩] ownerArray).NeedsReallocation
      = false ∧
    (destArray.Reallocate [⟨1, 1⟩, ⟨2, 1⟩] ownerArray).GetVersion =
      (destArray.GetVersion + 1) % 2 ^ 64 ∧
    (destArray.Reallocate [⟨1, 1⟩, ⟨2, 1⟩] ownerArray).rangeList =
      ([⟨1, 1⟩, ⟨2, 1⟩] : List HdBufferArrayRange).map (fun r => r.rid) ∧
    (destArray.Reallocate [⟨1, 1⟩, ⟨2, 1⟩] ownerArray).GetRangeCount =
      ([⟨1, 1⟩, ⟨2, 1⟩] : List HdBufferArrayRange).length := by
  have h := reallocate_spec destArray ownerArray [⟨1, 1⟩, ⟨2, 1⟩]
    (by decide) (by decide)
  exact ⟨h.1 ⟨1, 1⟩ (by decide), h.1 ⟨2, 1⟩ (by decide), h.2.1, h.2.2.1,
    h.2.2.2.1, h.2.2.2.2⟩

/-- C3 counterexample: a fresh array of capacity 1 satisfies the invariant,
yet `Reallocate` with a two-range set installs a range count of 2, above
`maxNumRanges` — full replacement performs no capacity check. -/
theorem reallocate_breaks_capacity :
    (mkHdBufferArray 0 "vertex" "gc" 1).GetRangeCount ≤
      (mkHdBufferArray 0 "vertex" "gc" 1).maxNumRanges ∧
    ¬ ((mkHdBufferArray 0 "vertex" "gc" 1).Reallocate [⟨1, 0⟩, ⟨2, 0⟩]
        (mkHdBufferArray 0 "vertex" "gc" 1)).GetRangeCount ≤
      ((mkHdBufferArray 0 "vertex" "gc" 1).Reallocate [⟨1, 0⟩, ⟨2, 0⟩]
        (mkHdBufferArray 0 "vertex" "gc" 1)).maxNumRanges := by
  decide

/-- C3 amended: the invariant `GetRangeCount ≤ maxNumRanges` (together with
the representation constraint that `_rangeCount` counts `_rangeList`) holds
after construction and is preserved by `TryAssignRange`,
`RemoveUnusedRanges` and `GarbageCollect`; `Reallocate` preserves it only
when the supplied range set has at most `maxNumRanges` elements, since it
installs the set wholesale without a capacity check. Accessors are pure
functions of the state and mutate nothing. -/
theorem operations_preserve_capacity (a : HdBufferArray) (i maxR : Nat)
    (role gcToken : String) (r : Nat) (alive : Nat → Bool)
    (R : List HdBufferArrayRange) (owner : HdBufferArray)
    (hwf : a.WellFormed) :
    (mkHdBufferArray i role gcToken maxR).WellFormed ∧
    (a.TryAssignRange r).1.WellFormed ∧
    (a.RemoveUnusedRanges alive).WellFormed ∧
    (a.GarbageCollect alive).1.WellFormed ∧
    (R.length ≤ a.maxNumRanges → (a.Reallocate R owner).WellFormed) ∧
    a.GetRangeCount ≤ a.maxNumRanges := by
  obtain ⟨hlen, hle⟩ := hwf
  have hfilter : (a.rangeList.filter alive).length ≤ a.rangeList.length :=
    List.length_filter_le _ _
  refine ⟨⟨rfl, Nat.zero_le _⟩, ?_, ⟨rfl, by
      unfold HdBufferArray.RemoveUnusedRanges; simp; omega⟩, ⟨by
      simp [HdBufferArray.GarbageCollect, HdBufferArray.RemoveUnusedRanges],
      by simp [HdBufferArray.GarbageCollect,
        HdBufferArray.RemoveUnusedRanges]; omega⟩, fun hR => ⟨by
      simp [HdBufferArray.Reallocate, HdBufferArray.SetRangeList], by
      simp [HdBufferArray.Reallocate, HdBufferArray.SetRangeList]; omega⟩,
    hle⟩
  unfold HdBufferArray.TryAssignRange
  by_cases hc : a.rangeCount < a.maxNumRanges
  · simp only [if_pos hc]
    exact ⟨by simp [hlen], hc⟩
  · simp only [if_neg hc]
    exact ⟨hlen, hle⟩

/-- A well-formed array holding ranges 1 and 2 under capacity 3. -/
def twoRangeArrayW : HdBufferArray :=
  { mkHdBufferArray 0 "vertex" "gc" 3 with
      rangeList := [1, 2], rangeCount := 2 }

/-- C3 amended witness: preservation evaluated on a two-range array of
capacity 3. -/
theorem operations_preserve_capacity_witness :
    ((mkHdBufferArray 5 "uniform" "gcu" 3).WellFormed ∧
    (twoRangeArrayW.TryAssignRange 9).1.WellFormed ∧
    (twoRangeArrayW.RemoveUnusedRanges (fun x => x != 1)).WellFormed ∧
    (twoRangeArrayW.GarbageCollect (fun x => x != 1)).1.WellFormed ∧
    (([⟨7, 0⟩] : List HdBufferArrayRange).length ≤
        twoRangeArrayW.maxNumRanges →
      (twoRangeArrayW.Reallocate [⟨7, 0⟩] twoRangeArrayW).WellFormed) ∧
    twoRangeArrayW.GetRangeCount ≤ twoRangeArrayW.maxNumRanges) :=
  operations_preserve_capacity twoRangeArrayW 5 3 "uniform" "gcu" 9
    (fun x => x != 1) [⟨7, 0⟩] twoRangeArrayW ⟨rfl, by decide⟩

/-- A full array holding ranges 1 and 2 under capacity 2. -/
def twoRangeArray : HdBufferArray :=
  { mkHdBufferArray 0 "vertex" "gc" 2 with
      rangeList := [1, 2], rangeCount := 2 }

/-- Liveness after range 1 has been destroyed: every range but 1 is alive. -/
def notOne : Nat → Bool := fun x => x != 1

/-- C6: on a full array in which at least one attached range has been
destroyed, `RemoveUnusedRanges` reduces `GetRangeCount` to the number of
live entries, which is below `maxNumRanges`, and a subsequent
`TryAssignRange` succeeds with no intervening `Reallocate`. -/
theorem removeUnusedRanges_frees_capacity (a : HdBufferArray)
    (alive : Nat → Bool) (r : Nat)
    (hcnt : a.rangeCount = a.rangeList.length)
    (hfull : a.GetRangeCount = a.maxNumRanges)
    (hdead : ∃ x ∈ a.rangeList, alive x = false) :
    (a.RemoveUnusedRanges alive).GetRangeCount =
      (a.rangeList.filter alive).length ∧
    (a.RemoveUnusedRanges alive).GetRangeCount < a.maxNumRanges ∧
    ((a.RemoveUnusedRanges alive).TryAssignRange r).2 = true := by
  have hlt : (a.rangeList.filter alive).length < a.rangeList.length := by
    obtain ⟨x, hx, hxd⟩ := hdead
    refine List.length_filter_lt_length_iff_exists.mpr ⟨x, hx, ?_⟩
    simp [hxd]
  have hlt' : (a.rangeList.filter alive).length < a.maxNumRanges := by
    rw [← hfull]
    unfold HdBufferArray.GetRangeCount
    omega
  refine ⟨rfl, hlt', ?_⟩
  simp [HdBufferArray.TryAssignRange, HdBufferArray.RemoveUnusedRanges, hlt']

/-- C6 witness: the scenario on a full capacity-2 array after range 1 dies;
assigning range 3 then succeeds. -/
theorem removeUnusedRanges_frees_capacity_witness :
    ((twoRangeArray.RemoveUnusedRanges notOne).GetRangeCount =
      (twoRangeArray.rangeList.filter notOne).length ∧
    (twoRangeArray.RemoveUnusedRanges notOne).GetRangeCount <
      twoRangeArray.maxNumRanges ∧
    ((twoRangeArray.RemoveUnusedRanges notOne).TryAssignRange 3).2 = true) :=
  removeUnusedRanges_frees_capacity twoRangeArray notOne 3 rfl rfl
    ⟨1, by decide, rfl⟩

/-- C7: `RemoveUnusedRanges` changes neither `GetVersion` nor
`NeedsReallocation`, and leaves every component of the state other than the
range list and its count untouched. -/
theorem removeUnusedRanges_nonstructural (a : HdBufferArray)
    (alive : Nat → Bool) :
    (a.RemoveUnusedRanges alive).GetVersion = a.GetVersion ∧
    (a.RemoveUnusedRanges alive).NeedsReallocation = a.NeedsReallocation ∧
    (a.RemoveUnusedRanges alive).role = a.role ∧
    (a.RemoveUnusedRanges alive).garbageCollectionPerfToken =
      a.garbageCollectionPerfToken ∧
    (a.RemoveUnusedRanges alive).maxNumRanges = a.maxNumRanges ∧
    (a.RemoveUnusedRanges alive).resourceList = a.resourceList ∧
    (a.RemoveUnusedRanges alive).storage = a.storage ∧
    (a.RemoveUnusedRanges alive).arrayId = a.arrayId :=
  ⟨rfl, rfl, rfl, rfl, rfl, rfl, rfl, rfl⟩

/-- C8: a second `RemoveUnusedRanges` under the same liveness (no range
destroyed and none inserted in between) removes nothing: the range count
after the second call equals the count after the first. -/
theorem removeUnusedRanges_idempotent (a : HdBufferArray)
    (alive : Nat → Bool) :
    ((a.RemoveUnusedRanges alive).RemoveUnusedRanges alive).GetRangeCount =
      (a.RemoveUnusedRanges alive).GetRangeCount := by
  simp [HdBufferArray.RemoveUnusedRanges, HdBufferArray.GetRangeCount,
    List.filter_filter]

/-- C9: the no-argument `GetResource` returns the sole resource when the
array holds exactly one, and signals a coding error — returning no
resource rather than an arbitrary one — whenever the array holds more than
one resource. -/
theorem getResource_spec (a : HdBufferArray) :
    (∀ n r, a.resourceList = [(n, r)] → a.GetResource = (some r, false)) ∧
    (1 < a.resourceList.length → a.GetResource = (none, true)) := by
  constructor
  · intro n r h
    simp [HdBufferArray.GetResource, h]
  · intro h
    rcases hl : a.resourceList with _ | ⟨p, _ | ⟨q, rest⟩⟩
    · rw [hl] at h; simp at h
    · rw [hl] at h; simp at h
    · simp [HdBufferArray.GetResource, hl]

/-- An array with a single resource named "points". -/
def oneResArray : HdBufferArray :=
  ((mkHdBufferArray 1 "vertex" "gc" 4).AddResource "points" 5126 3 1 0 12).1

/-- An array with two differently named resources. -/
def twoResArray : HdBufferArray :=
  ((oneResArray.AddResource "normals" 5126 3 1 12 12)).1

/-- C9 witness: a one-resource array yields its sole resource; a
two-resource array yields the coding-error signal. -/
theorem getResource_spec_witness :
    oneResArray.GetResource =
      (some ((mkHdBufferArray 1 "vertex" "gc" 4).AddResource
        "points" 5126 3 1 0 12).2, false) ∧
    twoResArray.GetResource = (none, true) :=
  ⟨(getResource_spec oneResArray).1 "points" _ rfl,
   (getResource_spec twoResArray).2 (by decide)⟩

/-- C10: `IncrementVersion` advances `GetVersion` by exactly one modulo
`2 ^ 64` and modifies no other component of the state; `n` consecutive
calls leave `GetVersion` at the original version plus `n` modulo `2 ^ 64`. -/
theorem incrementVersion_spec (a : HdBufferArray) (n : Nat)
    (h : a.version < 2 ^ 64) :
    a.IncrementVersion.GetVersion = (a.GetVersion + 1) % 2 ^ 64 ∧
    (iterateIncrement n a).GetVersion = (a.GetVersion + n) % 2 ^ 64 ∧
    a.IncrementVersion.role = a.role ∧
    a.IncrementVersion.garbageCollectionPerfToken =
      a.garbageCollectionPerfToken ∧
    a.IncrementVersion.needsReallocation = a.needsReallocation ∧
    a.IncrementVersion.maxNumRanges = a.maxNumRanges ∧
    a.IncrementVersion.resourceList = a.resourceList ∧
    a.IncrementVersion.rangeList = a.rangeList ∧
    a.IncrementVersion.rangeCount = a.rangeCount ∧
    a.IncrementVersion.storage = a.storage ∧
    a.IncrementVersion.arrayId = a.arrayId :=
  ⟨rfl, iterateIncrement_version n a h, rfl, rfl, rfl, rfl, rfl, rfl, rfl,
    rfl, rfl⟩

/-- C10 witness: three increments on a fresh array evaluated concretely. -/
theorem incrementVersion_spec_witness :
    (mkHdBufferArray 0 "vertex" "gc" 2).IncrementVersion.GetVersion =
      ((mkHdBufferArray 0 "vertex" "gc" 2).GetVersion + 1) % 2 ^ 64 ∧
    (iterateIncrement 3 (mkHdBufferArray 0 "vertex" "gc" 2)).GetVersion =
      ((mkHdBufferArray 0 "vertex" "gc" 2).GetVersion + 3) % 2 ^ 64 ∧
    (mkHdBufferArray 0 "vertex" "gc" 2).IncrementVersion.role =
      (mkHdBufferArray 0 "vertex" "gc" 2).role ∧
    (mkHdBufferArray 0 "vertex"
      "gc" 2).IncrementVersion.garbageCollectionPerfToken =
      (mkHdBufferArray 0 "vertex" "gc" 2).garbageCollectionPerfToken ∧
    (mkHdBufferArray 0 "vertex" "gc" 2).IncrementVersion.needsReallocation =
      (mkHdBufferArray 0 "vertex" "gc" 2).needsReallocation ∧
    (mkHdBufferArray 0 "vertex" "gc" 2).IncrementVersion.maxNumRanges =
      (mkHdBufferArray 0 "vertex" "gc" 2).maxNumRanges ∧
    (mkHdBufferArray 0 "vertex" "gc" 2).IncrementVersion.resourceList =
      (mkHdBufferArray 0 "vertex" "gc" 2).resourceList ∧
    (mkHdBufferArray 0 "vertex" "gc" 2).IncrementVersion.rangeList =
      (mkHdBufferArray 0 "vertex" "gc" 2).rangeList ∧
    (mkHdBufferArray 0 "vertex" "gc" 2).IncrementVersion.rangeCount =
      (mkHdBufferArray 0 "vertex" "gc" 2).rangeCount ∧
    (mkHdBufferArray 0 "vertex" "gc" 2).IncrementVersion.storage =
      (mkHdBufferArray 0 "vertex" "gc" 2).storage ∧
    (mkHdBufferArray 0 "vertex" "gc" 2).IncrementVersion.arrayId =
      (mkHdBufferArray 0 "vertex" "gc" 2).arrayId :=
  incrementVersion_spec (mkHdBufferArray 0 "vertex" "gc" 2) 3
    (by norm_num [mkHdBufferArray])
